import Mathlib

/-!
# Verification of the classroom funds ledger

A shallow embedding of the funds-ledger core of the repository:
the data model from `types.ts`, the store operations from
`src/services/db.ts`, and the ledger computations (`financials`,
`togglePayment`, `markAll`, quota helpers) from
`src/components/ClassFunds.tsx` and its second variant.

Modelling conventions:
* JS objects used as string-keyed maps (`customQuotas`, `collectionDays`,
  `payments`, the category accumulator) become association lists
  `List (String × _)` in key-insertion order; `{...m, [k]: v}` is the
  position-preserving upsert `setKey`, and `m[k]` is `lookup?`.
* Numeric amounts are modelled as `Int` (exact arithmetic; the claims
  involve only `+`, `-`, `max` and comparisons, never division or
  rounding).
* `Object.keys` enumeration order is modelled faithfully to the
  ECMAScript specification: keys that are canonical array indices come
  first in ascending numeric order, the remaining string keys in
  insertion order (`jsObjectKeys`).
* "today" (the local calendar date of the evaluation pass) and the
  clock/random-generated record ids are free parameters of the
  operations that use them.
* String processing for the roster import is carried out on `List Char`
  so every definition is executable by the kernel; `String.data` and
  `String.mk` mediate.  The source splits on the regular expression
  `\r?\n` and then trims each piece; since the trim removes a trailing
  carriage return as well, splitting on `'\n'` followed by the same trim
  is extensionally identical.
-/

namespace ClassFunds

/-- Lexicographic comparison of character lists, mirroring the JS `<=`
operator on strings (code-unit lexicographic order). -/
def chLe : List Char → List Char → Bool
  | [], _ => true
  | _ :: _, [] => false
  | a :: as, b :: bs => if a = b then chLe as bs else decide (a < b)

/-- JS string `a <= b`. -/
def strLeB (a b : String) : Bool := chLe a.data b.data

/-- Lookup in a JS-object-as-map: `m[k]`, `none` when the key is absent. -/
def lookup? {α : Type} (m : List (String × α)) (k : String) : Option α :=
  (m.find? (fun e => e.1 == k)).map (fun e => e.2)

/-- `{...m, [k]: v}`: replace the value at `k` keeping its position, or
append `(k, v)` when the key is new (JS property-creation order). -/
def setKey {α : Type} (m : List (String × α)) (k : String) (v : α) : List (String × α) :=
  match m with
  | [] => [(k, v)]
  | e :: rest => if e.1 == k then (k, v) :: rest else e :: setKey rest k v

/-- `Student.gender` from `types.ts`: `'M' | 'F'`. -/
inductive Gender : Type
  | M : Gender
  | F : Gender
deriving DecidableEq

/-- `Student` from `types.ts`: sparse `payments` map keyed by
`YYYY-MM-DD` date strings. -/
structure Student : Type where
  id : String
  name : String
  gender : Gender
  payments : List (String × Int)
deriving DecidableEq

/-- `Transaction` from `types.ts`, with the fields `db.addExpense`
fills in (`type` is spelled `txType`). -/
structure Transaction : Type where
  id : String
  amount : Int
  description : String
  date : String
  txType : String
  category : String
  status : String
deriving DecidableEq

/-- `PlannedExpense.priority` from `types.ts`. -/
inductive Priority : Type
  | High : Priority
  | Medium : Priority
  | Low : Priority
deriving DecidableEq

/-- `PlannedExpense` from `types.ts`. -/
structure PlannedExpense : Type where
  id : String
  item : String
  estimatedCost : Int
  priority : Priority
deriving DecidableEq

/-- `AppSettings` from `types.ts` / `DEFAULT_SETTINGS` in `db.ts`. -/
structure AppSettings : Type where
  dailyQuota : Int
  currencySymbol : String
  customQuotas : List (String × Int)
  collectionDays : List (String × Bool)
deriving DecidableEq

/-- `isCollectionActive` (ClassFunds): `settings.collectionDays?.[date] === true`. -/
def isCollectionActive (st : AppSettings) (date : String) : Bool :=
  lookup? st.collectionDays date == some true

/-- `getQuotaForDate` (ClassFunds):
`isCollectionActive(date) ? (settings.customQuotas?.[date] ?? settings.dailyQuota) : 0`. -/
def getQuotaForDate (st : AppSettings) (date : String) : Int :=
  if isCollectionActive st date then (lookup? st.customQuotas date).getD st.dailyQuota
  else 0

/-- The active collection date set of the `financials` computation:
`Object.keys(settings.collectionDays).filter(d => settings.collectionDays[d] === true && d <= today)`,
with `today` the local calendar date computed once per evaluation pass
and passed in as a parameter. -/
def activeCollectionDates (st : AppSettings) (today : String) : List String :=
  (st.collectionDays.map (fun e => e.1)).filter
    (fun d => (lookup? st.collectionDays d == some true) && strLeB d today)

/-- The displayed payment of a student for a date: `s.payments[date] || 0`. -/
def getPayment (s : Student) (date : String) : Int :=
  (lookup? s.payments date).getD 0

/-- The per-student debt loop of `financials`: one pass over the active
dates accumulating `paid` and `owe`
(`q = customQuotas?.[date] ?? dailyQuota`, `p = payments[date] || 0`),
then `Math.max(0, owe - paid)`. -/
def debtOf (st : AppSettings) (today : String) (s : Student) : Int :=
  let acc := (activeCollectionDates st today).foldl
    (fun (acc : Int × Int) date =>
      (acc.1 + (lookup? s.payments date).getD 0,
       acc.2 + (lookup? st.customQuotas date).getD st.dailyQuota))
    (0, 0)
  max 0 (acc.2 - acc.1)

/-- `{...s, debt}`: a roster entry together with its computed debt. -/
structure Debtor : Type where
  student : Student
  debt : Int
deriving DecidableEq

/-- Insert into a descending-by-debt list, after any entry with strictly
greater debt and before the first entry with debt `≤` its own: the
insertion step of a stable descending sort. -/
def insertDebtor (x : Debtor) : List Debtor → List Debtor
  | [] => [x]
  | y :: ys => if x.debt < y.debt then y :: insertDebtor x ys else x :: y :: ys

/-- `.sort((a, b) => b.debt - a.debt)`: ECMAScript `Array.prototype.sort`
is required to be stable, and with this consistent comparator its result
is the unique stable descending-by-debt reordering, modelled by stable
insertion sort. -/
def sortByDebtDesc : List Debtor → List Debtor
  | [] => []
  | x :: xs => insertDebtor x (sortByDebtDesc xs)

/-- `students.map(s => ({...s, debt})).filter(s => s.debt > 0)`:
the debtor candidates before sorting, in roster order. -/
def debtorCandidates (st : AppSettings) (today : String) (students : List Student) :
    List Debtor :=
  (students.map (fun s => Debtor.mk s (debtOf st today s))).filter (fun x => 0 < x.debt)

/-- The total-income accumulation of `financials`: for each student, every
recorded payment entry is added, with no filtering by the active-date set. -/
def totalIncomeOf (students : List Student) : Int :=
  students.foldl (fun acc s => s.payments.foldl (fun a e => a + e.2) acc) 0

/-- `expenses.reduce((sum, tx) => sum + tx.amount, 0)`. -/
def totalExpensesOf (expenses : List Transaction) : Int :=
  expenses.foldl (fun sum tx => sum + tx.amount) 0

/-- `e.category || 'Other'`: an empty (or missing) category folds into
the `"Other"` bucket. -/
def catKey (e : Transaction) : String :=
  if e.category == "" then "Other" else e.category

/-- `cats[k] = (cats[k] || 0) + v` on a JS object: add to the value at an
existing key (keeping its position), or append the key. -/
def upsertAdd (m : List (String × Int)) (k : String) (v : Int) : List (String × Int) :=
  match m with
  | [] => [(k, v)]
  | e :: rest => if e.1 == k then (e.1, e.2 + v) :: rest else e :: upsertAdd rest k v

/-- The category accumulator of `financials`:
`expenses.forEach(e => cats[e.category || 'Other'] = (cats[e.category || 'Other'] || 0) + e.amount)`. -/
def buildCats (expenses : List Transaction) : List (String × Int) :=
  expenses.foldl (fun m e => upsertAdd m (catKey e) e.amount) []

/-- Numeric value of a digit string (used only on all-digit keys). -/
def digitsVal (cs : List Char) : Nat :=
  cs.foldl (fun n c => 10 * n + (c.toNat - 48)) 0

/-- An ECMAScript array-index property key: the canonical base-10 string
of an integer `< 2^32 - 1` (all digits, no leading zero except `"0"`). -/
def isArrayIndex (s : String) : Bool :=
  let cs := s.data
  (!cs.isEmpty) && cs.all Char.isDigit && (cs.head? != some '0' || cs == ['0'])
    && decide (digitsVal cs < 4294967295)

/-- Insertion step for the ascending numeric ordering of array-index keys. -/
def insertIdxKey (k : String) : List String → List String
  | [] => [k]
  | j :: js => if digitsVal j.data ≤ digitsVal k.data then j :: insertIdxKey k js
               else k :: j :: js

/-- Ascending numeric sort of array-index keys. -/
def sortIdxKeys : List String → List String
  | [] => []
  | k :: ks => insertIdxKey k (sortIdxKeys ks)

/-- `Object.keys` on a JS object in creation order: array-index keys
first in ascending numeric order, then the remaining string keys in
insertion order (ECMAScript OrdinaryOwnPropertyKeys). -/
def jsObjectKeys (m : List (String × Int)) : List String :=
  let ks := m.map (fun e => e.1)
  sortIdxKeys (ks.filter isArrayIndex) ++ ks.filter (fun k => !(isArrayIndex k))

/-- `Object.keys(cats).map(name => ({name, value: cats[name]}))`. -/
def pieDataOf (expenses : List Transaction) : List (String × Int) :=
  (jsObjectKeys (buildCats expenses)).map
    (fun name => (name, (lookup? (buildCats expenses) name).getD 0))

/-- The record returned by the `financials` memo. -/
structure Financials : Type where
  totalIncome : Int
  totalExpenses : Int
  currentBalance : Int
  debtors : List Debtor
  totalDebt : Int
  totalWishlist : Int
  pieData : List (String × Int)
deriving DecidableEq

/-- The `financials` computation (ClassFunds), with `today` the local
calendar date computed once per evaluation pass. -/
def financials (st : AppSettings) (today : String) (students : List Student)
    (expenses : List Transaction) (plannedExpenses : List PlannedExpense) : Financials :=
  let debtors := sortByDebtDesc (debtorCandidates st today students)
  { totalIncome := totalIncomeOf students
    totalExpenses := totalExpensesOf expenses
    currentBalance := totalIncomeOf students - totalExpensesOf expenses
    debtors := debtors
    totalDebt := debtors.foldl (fun sum x => sum + x.debt) 0
    totalWishlist := plannedExpenses.foldl (fun sum p => sum + p.estimatedCost) 0
    pieData := pieDataOf expenses }

/-- `updateStudentPayment` (ClassFunds): set (not increment) the payment
of the student with the given id for the date. -/
def updateStudentPayment (students : List Student) (id date : String) (amount : Int) :
    List Student :=
  students.map (fun s =>
    if s.id == id then { s with payments := setKey s.payments date amount } else s)

/-- `togglePayment` (ClassFunds): no-op unless the date is an active
collection day and the student exists; otherwise set the payment to `0`
when the current amount already covers the quota, else to the quota. -/
def togglePayment (st : AppSettings) (students : List Student)
    (studentId selectedDate : String) : List Student :=
  if !(isCollectionActive st selectedDate) then students
  else
    match students.find? (fun s => s.id == studentId) with
    | none => students
    | some s =>
      let quota := getQuotaForDate st selectedDate
      let current := (lookup? s.payments selectedDate).getD 0
      let newAmt : Int := if quota ≤ current then 0 else quota
      updateStudentPayment students studentId selectedDate newAmt

/-- `markAll` (ClassFunds): no-op unless the date is active; otherwise
(after confirmation) set every student's payment for the date to the
quota (`paid = true`) or to `0` (`paid = false`). -/
def markAll (st : AppSettings) (students : List Student)
    (selectedDate : String) (paid : Bool) : List Student :=
  if !(isCollectionActive st selectedDate) then students
  else
    let quota := getQuotaForDate st selectedDate
    students.map (fun s =>
      { s with payments := setKey s.payments selectedDate (if paid then quota else 0) })

/-- The payment recorded for a student id and date, `0` when the student
is absent: `students.find(...)?.payments[date] || 0`. -/
def getPaymentOf (students : List Student) (studentId date : String) : Int :=
  match students.find? (fun s => s.id == studentId) with
  | some s => (lookup? s.payments date).getD 0
  | none => 0

/-- The store tables touched by the expense/wishlist operations of
`db.ts` (each method reads and rewrites one table wholesale). -/
structure DBState : Type where
  students : List Student
  transactions : List Transaction
  plannedExpenses : List PlannedExpense
deriving DecidableEq

/-- `db.addExpense` (db.ts): append a new `EXPENSE`/`PAID` transaction;
the clock-generated id and creation timestamp are parameters. -/
def addExpense (db : DBState) (newId nowIso : String) (amount : Int)
    (description category : String) : DBState :=
  { db with transactions :=
      db.transactions ++ [Transaction.mk newId amount description nowIso
        ("EXPENSE") category ("PAID")] }

/-- `db.deletePlannedExpense` (db.ts): `plans.filter(p => p.id !== id)`. -/
def deletePlannedExpense (db : DBState) (id : String) : DBState :=
  { db with plannedExpenses := db.plannedExpenses.filter (fun p => !(p.id == id)) }

/-- `convertWishToExpense` (ClassFunds): `db.addExpense(wish.estimatedCost,
wish.item, 'Materials')` and then `db.deletePlannedExpense(wish.id)`,
in that order (create-then-delete). -/
def convertWishToExpense (db : DBState) (wish : PlannedExpense) (newId nowIso : String) :
    DBState :=
  deletePlannedExpense (addExpense db newId nowIso wish.estimatedCost wish.item ("Materials"))
    wish.id

/-- Split a character list at every `'\n'` (the pieces of the source's
split on `\r?\n`; the per-line trim below removes any remaining `'\r'`). -/
def splitNewlines (cs : List Char) : List (List Char) :=
  match cs with
  | [] => [[]]
  | c :: rest =>
    match splitNewlines rest with
    | [] => [[]]
    | l :: ls => if c = '\n' then [] :: l :: ls else (c :: l) :: ls

/-- `.trim()`: drop whitespace from both ends. -/
def trimChars (cs : List Char) : List Char :=
  ((cs.dropWhile Char.isWhitespace).reverse.dropWhile Char.isWhitespace).reverse

/-- `line.toUpperCase().startsWith(g + sep)` for a one-letter gender
marker `g` and separator `sep` (`' '` or `','`, both fixed points of
`toUpperCase`). -/
def startsWithMarker (g sep : Char) (cs : List Char) : Bool :=
  match cs with
  | c1 :: c2 :: _ => c1.toUpper == g && c2 == sep
  | _ => false

/-- One line of `importStudentsFromText` (db.ts): an `F `/`F,` prefix
yields a female, an `M `/`M,` prefix a male — in both cases the name is
`line.substring(2).replace(/[,]/g, '').trim()` — and an unmarked line a
male named by the line itself. -/
def parseImportLine (cs : List Char) : Gender × String :=
  if startsWithMarker ('F') (' ') cs || startsWithMarker ('F') (',') cs then
    (Gender.F, String.mk (trimChars ((cs.drop 2).filter (fun c => !(c == ',')))))
  else if startsWithMarker ('M') (' ') cs || startsWithMarker ('M') (',') cs then
    (Gender.M, String.mk (trimChars ((cs.drop 2).filter (fun c => !(c == ',')))))
  else
    (Gender.M, String.mk cs)

/-- A student created by the import, before the clock/random id is
attached (the source appends these to the stored roster). -/
structure ImportedStudent : Type where
  name : String
  gender : Gender
  payments : List (String × Int)
deriving DecidableEq

/-- `db.importStudentsFromText` (db.ts): split into trimmed non-empty
lines, parse each line, create students with empty payment maps, and
return them together with the count the function returns. -/
def importStudentsFromText (text : String) : List ImportedStudent × Nat :=
  let lines := ((splitNewlines text.data).map trimChars).filter (fun cs => 0 < cs.length)
  let newStudents := lines.map (fun cs =>
    let p := parseImportLine cs
    ImportedStudent.mk p.2 p.1 [])
  (newStudents, newStudents.length)

/-- Formalised from the spec for comparison with the code: the category
keys in order of first occurrence. -/
def specFirstOccurKeys (ks : List String) : List String :=
  ks.foldl (fun acc k => if k ∈ acc then acc else acc ++ [k]) []

/-- Formalised from the spec: the summed amount of one category group. -/
def specCategoryTotal (expenses : List Transaction) (k : String) : Int :=
  ((expenses.filter (fun e => catKey e == k)).map (fun e => e.amount)).sum

/-- Formalised from the spec: group transactions by category (empty
category folding into `"Other"`), sum the amounts per group, and list
the groups in order of each category's first occurrence. -/
def specCategoryBreakdown (expenses : List Transaction) : List (String × Int) :=
  (specFirstOccurKeys (expenses.map catKey)).map
    (fun k => (k, specCategoryTotal expenses k))

theorem lookup?_setKey_self {α : Type} (m : List (String × α)) (k : String) (v : α) :
    lookup? (setKey m k v) k = some v := by
  induction m with
  | nil => simp [setKey, lookup?, List.find?]
  | cons e rest ih =>
    by_cases h : e.1 == k
    · simp [setKey, h, lookup?, List.find?]
    · simpa [setKey, h, lookup?, List.find?] using ih

theorem lookup?_mem_keys {α : Type} {m : List (String × α)} {k : String} {v : α}
    (h : lookup? m k = some v) : k ∈ m.map (fun e => e.1) := by
  unfold lookup? at h
  cases hf : m.find? (fun e => e.1 == k) with
  | none => simp [hf] at h
  | some e =>
    have he : e ∈ m := List.mem_of_find?_eq_some hf
    have hk := List.find?_some (p := fun e : String × α => e.1 == k) hf
    exact List.mem_map.mpr ⟨e, he, by simpa using hk⟩

theorem foldl_pair_sum (f g : String → Int) (l : List String) (a b : Int) :
    l.foldl (fun acc d => (acc.1 + f d, acc.2 + g d)) (a, b)
      = (a + (l.map f).sum, b + (l.map g).sum) := by
  induction l generalizing a b with
  | nil => simp
  | cons d l ih => simp [ih, add_assoc]

theorem foldl_add_sum {α : Type} (f : α → Int) (l : List α) (a : Int) :
    l.foldl (fun acc x => acc + f x) a = a + (l.map f).sum := by
  induction l generalizing a with
  | nil => simp
  | cons x l ih => simp [ih, add_assoc]

theorem totalIncomeOf_eq_sum (students : List Student) :
    totalIncomeOf students
      = (students.map (fun s => (s.payments.map (fun e => e.2)).sum)).sum := by
  have key : ∀ (l : List Student) (a : Int),
      l.foldl (fun acc s => s.payments.foldl (fun x e => x + e.2) acc) a
        = a + (l.map (fun s => (s.payments.map (fun e => e.2)).sum)).sum := by
    intro l
    induction l with
    | nil => simp
    | cons s l ih =>
      intro a
      have hinner : s.payments.foldl (fun x e => x + e.2) a
          = a + (s.payments.map (fun e => e.2)).sum := foldl_add_sum (α := String × Int) (fun e => e.2) s.payments a
      simp [hinner, ih, add_assoc]
  simpa using key students 0


theorem insertDebtor_perm (x : Debtor) (l : List Debtor) :
    (insertDebtor x l).Perm (x :: l) := by
  induction l with
  | nil => simp [insertDebtor]
  | cons y ys ih =>
    by_cases h : x.debt < y.debt
    · simp only [insertDebtor, if_pos h]
      exact (ih.cons y).trans (List.Perm.swap x y ys)
    · simp [insertDebtor, if_neg h]

theorem sortByDebtDesc_perm (l : List Debtor) : (sortByDebtDesc l).Perm l := by
  induction l with
  | nil => simp [sortByDebtDesc]
  | cons x xs ih => exact (insertDebtor_perm x (sortByDebtDesc xs)).trans (ih.cons x)

theorem insertDebtor_pairwise (x : Debtor) (l : List Debtor)
    (h : l.Pairwise (fun a b => b.debt ≤ a.debt)) :
    (insertDebtor x l).Pairwise (fun a b => b.debt ≤ a.debt) := by
  induction l with
  | nil => simp [insertDebtor]
  | cons y ys ih =>
    rcases List.pairwise_cons.mp h with ⟨hy, hys⟩
    by_cases hlt : x.debt < y.debt
    · simp only [insertDebtor, if_pos hlt]
      refine List.pairwise_cons.mpr ⟨?_, ih hys⟩
      intro z hz
      rcases List.mem_cons.mp ((insertDebtor_perm x ys).mem_iff.mp hz) with rfl | hzy
      · exact le_of_lt hlt
      · exact hy z hzy
    · simp only [insertDebtor, if_neg hlt]
      refine List.pairwise_cons.mpr ⟨?_, h⟩
      intro z hz
      rcases List.mem_cons.mp hz with rfl | hzys
      · exact le_of_not_lt hlt
      · exact le_trans (hy z hzys) (le_of_not_lt hlt)

theorem sortByDebtDesc_pairwise (l : List Debtor) :
    (sortByDebtDesc l).Pairwise (fun a b => b.debt ≤ a.debt) := by
  induction l with
  | nil => simp [sortByDebtDesc]
  | cons x xs ih => exact insertDebtor_pairwise x _ ih

theorem insertDebtor_filter_key (x : Debtor) (l : List Debtor) (k : Int) :
    (insertDebtor x l).filter (fun z => z.debt == k)
      = if x.debt == k then x :: l.filter (fun z => z.debt == k)
        else l.filter (fun z => z.debt == k) := by
  induction l with
  | nil => by_cases hx : x.debt == k <;> simp [insertDebtor, List.filter, hx]
  | cons y ys ih =>
    by_cases hlt : x.debt < y.debt
    · by_cases hx : x.debt == k
      · have hxk : x.debt = k := by simpa using hx
        have hy : (y.debt == k) = false := by
          have : y.debt ≠ k := by omega
          simpa using this
        simp [insertDebtor, if_pos hlt, List.filter_cons, hx, hy, ih]
      · simp [insertDebtor, if_pos hlt, List.filter_cons, hx, ih]
    · by_cases hx : x.debt == k <;>
        simp [insertDebtor, if_neg hlt, List.filter_cons, hx]

theorem sortByDebtDesc_filter_key (l : List Debtor) (k : Int) :
    (sortByDebtDesc l).filter (fun z => z.debt == k)
      = l.filter (fun z => z.debt == k) := by
  induction l with
  | nil => rfl
  | cons x xs ih =>
    by_cases hx : x.debt == k <;>
      simp [sortByDebtDesc, insertDebtor_filter_key, ih, List.filter_cons, hx]

theorem find?_updateStudentPayment (students : List Student) (sid date : String)
    (amt : Int) :
    (updateStudentPayment students sid date amt).find? (fun t => t.id == sid)
      = (students.find? (fun t => t.id == sid)).map
          (fun s => { s with payments := setKey s.payments date amt }) := by
  induction students with
  | nil => rfl
  | cons s rest ih =>
    by_cases h : s.id == sid
    · simp [updateStudentPayment, List.find?, h]
    · simpa [updateStudentPayment, List.find?, h] using ih

theorem getPaymentOf_update (students : List Student) (sid date : String) (amt : Int)
    (h : (students.find? (fun t => t.id == sid)).isSome = true) :
    getPaymentOf (updateStudentPayment students sid date amt) sid date = amt := by
  unfold getPaymentOf
  rw [find?_updateStudentPayment]
  cases hf : students.find? (fun t => t.id == sid) with
  | none => rw [hf] at h; simp at h
  | some s => simp [lookup?_setKey_self]

theorem mem_trimChars {c : Char} {l : List Char} (h : c ∈ trimChars l) : c ∈ l := by
  unfold trimChars at h
  have h1 := List.mem_reverse.mp h
  have h2 := (List.dropWhile_sublist _).subset h1
  have h3 := List.mem_reverse.mp h2
  exact (List.dropWhile_sublist _).subset h3


theorem upsertAdd_keys (m : List (String × Int)) (k : String) (v : Int) :
    (upsertAdd m k v).map (fun e => e.1)
      = if k ∈ m.map (fun e => e.1) then m.map (fun e => e.1)
        else m.map (fun e => e.1) ++ [k] := by
  induction m with
  | nil => simp [upsertAdd]
  | cons e rest ih =>
    by_cases h : e.1 == k
    · have hk : e.1 = k := by simpa using h
      simp [upsertAdd, h, hk]
    · have hne : e.1 ≠ k := by simpa using h
      by_cases hk : k ∈ rest.map (fun e => e.1) <;>
        simp [upsertAdd, h, ih, hk, Ne.symm hne]

theorem upsertAdd_lookup_getD (m : List (String × Int)) (k kk : String) (v : Int) :
    (lookup? (upsertAdd m kk v) k).getD 0
      = (lookup? m k).getD 0 + (if kk == k then v else 0) := by
  induction m with
  | nil => by_cases h : kk == k <;> simp [upsertAdd, lookup?, List.find?, h]
  | cons e rest ih =>
    by_cases h : e.1 == kk
    · have hek : e.1 = kk := by simpa using h
      by_cases h2 : e.1 == k
      · have : kk == k := by simp [← hek]; simpa using h2
        simp [upsertAdd, h, lookup?, List.find?, h2, this]
      · have : (kk == k) = false := by
          rw [← hek]; simpa using h2
        simp [upsertAdd, h, lookup?, List.find?, h2, this]
    · by_cases h2 : e.1 == k
      · have hek : e.1 = k := by simpa using h2
        have h3 : e.1 ≠ kk := by simpa using h
        have hne : (kk == k) = false := by
          have : kk ≠ k := fun hc => h3 (by rw [hc, hek])
          simpa using this
        simp [upsertAdd, h, lookup?, List.find?, h2, hne]
      · simpa [upsertAdd, h, lookup?, List.find?, h2] using ih

theorem cats_keys_foldl (es : List Transaction) (m : List (String × Int)) :
    ((es.foldl (fun m e => upsertAdd m (catKey e) e.amount) m).map (fun e => e.1))
      = (es.map catKey).foldl (fun acc k => if k ∈ acc then acc else acc ++ [k])
          (m.map (fun e => e.1)) := by
  induction es generalizing m with
  | nil => rfl
  | cons e rest ih =>
    simp only [List.foldl_cons, List.map_cons]
    rw [ih, upsertAdd_keys]

theorem cats_lookup_foldl (es : List Transaction) (m : List (String × Int)) (k : String) :
    (lookup? (es.foldl (fun m e => upsertAdd m (catKey e) e.amount) m) k).getD 0
      = (lookup? m k).getD 0 + specCategoryTotal es k := by
  induction es generalizing m with
  | nil => simp [specCategoryTotal]
  | cons e rest ih =>
    simp only [List.foldl_cons]
    rw [ih, upsertAdd_lookup_getD]
    have hstep : specCategoryTotal (e :: rest) k
        = (if catKey e == k then e.amount else 0) + specCategoryTotal rest k := by
      by_cases h : catKey e == k <;> simp [specCategoryTotal, List.filter_cons, h]
    rw [hstep]
    ring

theorem keysFold_subset (ks : List String) (acc : List String) :
    ∀ k ∈ ks.foldl (fun a j => if j ∈ a then a else a ++ [j]) acc, k ∈ acc ∨ k ∈ ks := by
  induction ks generalizing acc with
  | nil => intro k h; exact Or.inl h
  | cons j js ih =>
    intro k h
    simp only [List.foldl_cons] at h
    rcases ih _ k h with hacc | hjs
    · by_cases hj : j ∈ acc
      · rw [if_pos hj] at hacc
        exact Or.inl hacc
      · rw [if_neg hj] at hacc
        rcases List.mem_append.mp hacc with h1 | h1
        · exact Or.inl h1
        · simp only [List.mem_singleton] at h1
          subst h1
          exact Or.inr (List.mem_cons_self _ _)
    · exact Or.inr (List.mem_cons_of_mem _ hjs)

theorem jsObjectKeys_no_index (m : List (String × Int))
    (h : ∀ k ∈ m.map (fun e => e.1), isArrayIndex k = false) :
    jsObjectKeys m = m.map (fun e => e.1) := by
  have h1 : (m.map (fun e => e.1)).filter isArrayIndex = [] := by
    rw [List.filter_eq_nil_iff]
    intro k hk
    simp [h k hk]
  have h2 : (m.map (fun e => e.1)).filter (fun k => !(isArrayIndex k))
      = m.map (fun e => e.1) := by
    rw [List.filter_eq_self]
    intro k hk
    simp [h k hk]
  simp only [jsObjectKeys, h1, h2, sortIdxKeys, List.nil_append]


theorem length_filter_ne_id (wishId : String) (l : List PlannedExpense) :
    (l.filter (fun p => !(p.id == wishId))).length
        + l.countP (fun p => p.id == wishId)
      = l.length := by
  induction l with
  | nil => rfl
  | cons p rest ih =>
    by_cases h : p.id == wishId <;>
      · simp [List.filter_cons, List.countP_cons, h]
        omega

/-- C1: for every student the computed debt is `max 0 (owed - paid)`, where
`owed` sums the effective quota and `paid` the recorded payment over
exactly the active-date set `{d | collectionDays[d] = true ∧ d ≤ today}`
(`today` the calendar date of the evaluation pass, shared by all
students); consequently the debt is never negative. -/
theorem debtOf_eq_clamped_shortfall (st : AppSettings) (today : String) (s : Student) :
    debtOf st today s
      = max 0 (((activeCollectionDates st today).map (fun d => getQuotaForDate st d)).sum
          - ((activeCollectionDates st today).map (fun d => getPayment s d)).sum)
    ∧ 0 ≤ debtOf st today s
    ∧ ∀ d : String, d ∈ activeCollectionDates st today ↔
        (lookup? st.collectionDays d = some true ∧ strLeB d today = true) := by
  have hmem : ∀ d : String, d ∈ activeCollectionDates st today ↔
      (lookup? st.collectionDays d = some true ∧ strLeB d today = true) := by
    intro d
    unfold activeCollectionDates
    rw [List.mem_filter]
    constructor
    · rintro ⟨_, hc⟩
      have hc2 : (lookup? st.collectionDays d == some true) = true
          ∧ strLeB d today = true := by simpa using hc
      exact ⟨by simpa using hc2.1, hc2.2⟩
    · rintro ⟨h1, h2⟩
      refine ⟨lookup?_mem_keys h1, ?_⟩
      simp [h1, h2]
  have hquota : ∀ d ∈ activeCollectionDates st today,
      (lookup? st.customQuotas d).getD st.dailyQuota = getQuotaForDate st d := by
    intro d hd
    have hact : isCollectionActive st d = true := by
      simp [isCollectionActive, ((hmem d).mp hd).1]
    simp [getQuotaForDate, hact]
  refine ⟨?_, ?_, hmem⟩
  · have hfold := foldl_pair_sum (fun d => (lookup? s.payments d).getD 0)
      (fun d => (lookup? st.customQuotas d).getD st.dailyQuota)
      (activeCollectionDates st today) 0 0
    have hmap : (activeCollectionDates st today).map
          (fun d => (lookup? st.customQuotas d).getD st.dailyQuota)
        = (activeCollectionDates st today).map (fun d => getQuotaForDate st d) :=
      List.map_congr_left hquota
    simp only [debtOf, hfold, zero_add]
    rw [hmap]
    rfl
  · simp only [debtOf]
    exact le_max_left 0 _

/-- C2: aggregate income sums every payment entry of every student over
every recorded date, with no filtering by the active-date set: it is
unchanged by any modification of `collectionDays` (in particular by
deactivating a date after payments were recorded for it). -/
theorem totalIncome_sums_all_payments (st : AppSettings) (today : String)
    (students : List Student) (expenses : List Transaction)
    (planned : List PlannedExpense) :
    (financials st today students expenses planned).totalIncome
      = (students.map (fun s => (s.payments.map (fun e => e.2)).sum)).sum
    ∧ ∀ (cd : List (String × Bool)) (today2 : String),
        (financials { st with collectionDays := cd } today2 students expenses
            planned).totalIncome
          = (financials st today students expenses planned).totalIncome := by
  constructor
  · exact totalIncomeOf_eq_sum students
  · intro cd today2
    rfl

/-- C4: a date that is not an active collection day (absent from
`collectionDays` or explicitly `false`) has effective quota `0`, and
both `togglePayment` and `markAll` (for either flag) on it leave the
roster unchanged. -/
theorem inactive_date_noop (st : AppSettings) (students : List Student)
    (sid d : String) (h : lookup? st.collectionDays d ≠ some true) :
    getQuotaForDate st d = 0
    ∧ togglePayment st students sid d = students
    ∧ markAll st students d true = students
    ∧ markAll st students d false = students := by
  have hb : isCollectionActive st d = false := by
    unfold isCollectionActive
    simpa using h
  exact ⟨by simp [getQuotaForDate, hb], by simp [togglePayment, hb],
    by simp [markAll, hb], by simp [markAll, hb]⟩

/-- C5: the debtor listing of `financials` is a permutation of exactly
the roster entries with strictly positive computed debt, is sorted in
descending order of debt, and entries of equal debt keep their roster
order (stability, expressed as equality of the equal-debt subsequences). -/
theorem debtors_positive_sorted_stable (st : AppSettings) (today : String)
    (students : List Student) (expenses : List Transaction)
    (planned : List PlannedExpense) :
    ((financials st today students expenses planned).debtors).Perm
        (debtorCandidates st today students)
    ∧ ((financials st today students expenses planned).debtors).Pairwise
        (fun a b => b.debt ≤ a.debt)
    ∧ ∀ k : Int, ((financials st today students expenses planned).debtors).filter
          (fun z => z.debt == k)
        = (debtorCandidates st today students).filter (fun z => z.debt == k) := by
  refine ⟨sortByDebtDesc_perm _, sortByDebtDesc_pairwise _, fun k => ?_⟩
  exact sortByDebtDesc_filter_key _ k

/-- C6: converting a planned expense that occurs once in the planned list
appends exactly one transaction whose amount is its estimated cost and
removes exactly one planned item; the operation is ordered
create-then-delete, so the state after the creation half alone still has
the planned list intact. -/
theorem convertWishToExpense_spec (db : DBState) (wish : PlannedExpense)
    (newId nowIso : String)
    (_hmem : wish ∈ db.plannedExpenses)
    (huniq : db.plannedExpenses.countP (fun p => p.id == wish.id) = 1) :
    (convertWishToExpense db wish newId nowIso).transactions.length
        = db.transactions.length + 1
    ∧ (convertWishToExpense db wish newId nowIso).plannedExpenses.length + 1
        = db.plannedExpenses.length
    ∧ ((convertWishToExpense db wish newId nowIso).transactions.getLast?).map
          (fun t => t.amount) = some wish.estimatedCost
    ∧ (addExpense db newId nowIso wish.estimatedCost wish.item
          ("Materials")).plannedExpenses
        = db.plannedExpenses := by
  refine ⟨?_, ?_, ?_, rfl⟩
  · simp [convertWishToExpense, deletePlannedExpense, addExpense]
  · have hlen := length_filter_ne_id wish.id db.plannedExpenses
    simp only [convertWishToExpense, deletePlannedExpense, addExpense]
    omega
  · simp [convertWishToExpense, deletePlannedExpense, addExpense,
      List.getLast?_concat]

/-- C7: on an active collection day, `markAll` with `paid = true` followed
by `markAll` with `paid = false` leaves every student on the roster with
a recorded payment of exactly `0` for that date, whatever each student's
prior entry (or absence of one). -/
theorem markAll_paid_then_reset_zero (st : AppSettings) (students : List Student)
    (d : String) (h : isCollectionActive st d = true) :
    ∀ s ∈ markAll st (markAll st students d true) d false,
      lookup? s.payments d = some 0 := by
  intro s hs
  simp only [markAll, h, Bool.not_true, Bool.false_eq_true, if_false] at hs
  rcases List.mem_map.mp hs with ⟨t, _, rfl⟩
  exact lookup?_setKey_self _ _ _

/-- C8: the import splits its input into non-empty trimmed lines, makes
an `F `/`F,` line a female student, an `M `/`M,` line a male student and
an unmarked line a male student, gives every new student an empty
payment map, and returns the count of students created; on
`"Alice\nF Beth\nM Carl\n\n"` it creates exactly Alice (male),
Beth (female) and Carl (male), ignoring the blank lines. -/
theorem importStudentsFromText_spec (text : String) :
    (importStudentsFromText text).2 = (importStudentsFromText text).1.length
    ∧ (∀ s ∈ (importStudentsFromText text).1, s.payments = [])
    ∧ importStudentsFromText ("Alice\nF Beth\nM Carl\n\n")
        = ([ImportedStudent.mk ("Alice") Gender.M [],
            ImportedStudent.mk ("Beth") Gender.F [],
            ImportedStudent.mk ("Carl") Gender.M []], 3) := by
  refine ⟨rfl, ?_, by decide⟩
  intro s hs
  simp only [importStudentsFromText] at hs
  rcases List.mem_map.mp hs with ⟨cs, _, rfl⟩
  rfl


/-- C3 (amended): `togglePayment` twice restores `payments[d]` when the
starting value is one of the two binary states `0` or the effective
quota (with a non-negative quota); a partial amount strictly between `0`
and the quota is not restored — the first toggle raises it to the quota
and the second clears it to `0`. -/
theorem togglePayment_involutive_on_binary (st : AppSettings)
    (students : List Student) (sid date : String) (s : Student)
    (hfind : students.find? (fun t => t.id == sid) = some s)
    (hq : 0 ≤ getQuotaForDate st date)
    (hbin : getPayment s date = 0 ∨ getPayment s date = getQuotaForDate st date) :
    getPaymentOf (togglePayment st (togglePayment st students sid date) sid date)
        sid date
      = getPaymentOf students sid date := by
  by_cases hact : isCollectionActive st date
  · have hsome : ∀ a : Int,
        ((updateStudentPayment students sid date a).find?
            (fun t => t.id == sid)).isSome = true := by
      intro a
      rw [find?_updateStudentPayment, hfind]
      rfl
    have hfind2 : ∀ a : Int,
        (updateStudentPayment students sid date a).find? (fun t => t.id == sid)
          = some { s with payments := setKey s.payments date a } := by
      intro a
      rw [find?_updateStudentPayment, hfind]
      rfl
    have h1 : togglePayment st students sid date
        = updateStudentPayment students sid date
            (if getQuotaForDate st date ≤ (lookup? s.payments date).getD 0 then 0
             else getQuotaForDate st date) := by
      simp [togglePayment, hact, hfind]
    have h2 : togglePayment st (togglePayment st students sid date) sid date
        = updateStudentPayment (togglePayment st students sid date) sid date
            (if getQuotaForDate st date
                ≤ (if getQuotaForDate st date ≤ (lookup? s.payments date).getD 0
                    then 0 else getQuotaForDate st date)
             then 0 else getQuotaForDate st date) := by
      rw [h1]
      simp [togglePayment, hact, hfind2, lookup?_setKey_self]
    rw [h2, h1]
    rw [getPaymentOf_update _ _ _ _ (by rw [← h1]; rw [h1]; exact hsome _)]
    have hv : getPaymentOf students sid date = (lookup? s.payments date).getD 0 := by
      unfold getPaymentOf
      rw [hfind]
    rw [hv]
    unfold getPayment at hbin
    rcases hbin with hb | hb <;> rw [hb] <;> split_ifs <;> omega
  · have hno : togglePayment st students sid date = students := by
      simp [togglePayment, hact]
    rw [hno, hno]


/-- C9 (amended): the category breakdown groups transactions by category,
folds a missing/empty category into the `"Other"` bucket and sums
amounts per group; the groups appear in insertion order of each
category's first occurrence provided no category name is a canonical
array-index string — such keys (e.g. `"1"`) are enumerated first in
ascending numeric order by the JS object underlying the accumulator. -/
theorem pieData_eq_spec_breakdown (expenses : List Transaction)
    (h : ∀ e ∈ expenses, isArrayIndex (catKey e) = false) :
    pieDataOf expenses = specCategoryBreakdown expenses := by
  have hkeys : (buildCats expenses).map (fun e => e.1)
      = specFirstOccurKeys (expenses.map catKey) := by
    unfold buildCats specFirstOccurKeys
    simpa using cats_keys_foldl expenses []
  have hnoidx : ∀ k ∈ (buildCats expenses).map (fun e => e.1),
      isArrayIndex k = false := by
    intro k hk
    rw [hkeys] at hk
    rcases keysFold_subset (expenses.map catKey) [] k hk with h0 | h0
    · simp at h0
    · rcases List.mem_map.mp h0 with ⟨e, he, rfl⟩
      exact h e he
  unfold pieDataOf specCategoryBreakdown
  rw [jsObjectKeys_no_index _ hnoidx, hkeys]
  refine List.map_congr_left ?_
  intro k _
  have hval : (lookup? (buildCats expenses) k).getD 0
      = specCategoryTotal expenses k := by
    have hc := cats_lookup_foldl expenses [] k
    simpa [buildCats, lookup?] using hc
  rw [hval]

/-- C10: comma stripping applies only to gender-marked lines — a line
with an `F `/`F,`/`M `/`M,` marker has the marker dropped and every
remaining comma removed from the name, while an unmarked line becomes
the student's name verbatim, commas included; the line
`"Agarao, Franco"` imports as a student named `"Agarao, Franco"`. -/
theorem importLine_comma_stripping (cs : List Char) :
    ((startsWithMarker ('F') (' ') cs || startsWithMarker ('F') (',') cs) = true →
        parseImportLine cs
            = (Gender.F, String.mk (trimChars
                ((cs.drop 2).filter (fun c => !(c == ',')))))
          ∧ (',') ∉ (parseImportLine cs).2.data)
    ∧ ((startsWithMarker ('F') (' ') cs || startsWithMarker ('F') (',') cs) = false →
        (startsWithMarker ('M') (' ') cs || startsWithMarker ('M') (',') cs) = true →
        parseImportLine cs
            = (Gender.M, String.mk (trimChars
                ((cs.drop 2).filter (fun c => !(c == ',')))))
          ∧ (',') ∉ (parseImportLine cs).2.data)
    ∧ ((startsWithMarker ('F') (' ') cs || startsWithMarker ('F') (',') cs) = false →
        (startsWithMarker ('M') (' ') cs || startsWithMarker ('M') (',') cs) = false →
        parseImportLine cs = (Gender.M, String.mk cs))
    ∧ importStudentsFromText ("Agarao, Franco")
        = ([ImportedStudent.mk ("Agarao, Franco") Gender.M []], 1) := by
  have hnc : (',') ∉ trimChars ((cs.drop 2).filter (fun c => !(c == ','))) := by
    intro hmem
    have h1 := mem_trimChars hmem
    have h2 := (List.mem_filter.mp h1).2
    simp at h2
  refine ⟨?_, ?_, ?_, by decide⟩
  · intro hf
    have hp : parseImportLine cs
        = (Gender.F, String.mk (trimChars
            ((cs.drop 2).filter (fun c => !(c == ','))))) := by
      simp [parseImportLine, hf]
    exact ⟨hp, by rw [hp]; exact hnc⟩
  · intro hf hm
    have hp : parseImportLine cs
        = (Gender.M, String.mk (trimChars
            ((cs.drop 2).filter (fun c => !(c == ','))))) := by
      simp [parseImportLine, hf, hm]
    exact ⟨hp, by rw [hp]; exact hnc⟩
  · intro hf hm
    simp [parseImportLine, hf, hm]


/-- Sample settings: quota 5, `2024-01-08` an active collection day. -/
def sampleSettings : AppSettings :=
  AppSettings.mk 5 ("P") [] [(("2024-01-08"), true)]

/-- Sample settings with `2024-01-08` explicitly deactivated. -/
def inactiveSettings : AppSettings :=
  AppSettings.mk 5 ("P") [] [(("2024-01-08"), false)]

/-- A student with a partial payment of 3 against the quota of 5. -/
def partialStudent : Student :=
  Student.mk ("s1") ("Ana") Gender.M [(("2024-01-08"), 3)]

/-- A student fully paid for `2024-01-08`. -/
def paidStudent : Student :=
  Student.mk ("s1") ("Ana") Gender.M [(("2024-01-08"), 5)]

/-- A student with no payment entry at all. -/
def freshStudent : Student :=
  Student.mk ("s2") ("Ben") Gender.M []

/-- An expense in the `Materials` category. -/
def txMaterials : Transaction :=
  Transaction.mk ("t1") 20 ("Markers") ("2024-01-01T00:00:00.000Z") ("EXPENSE")
    ("Materials") ("PAID")

/-- An expense whose custom category is the array-index string `"1"`. -/
def txNumericCat : Transaction :=
  Transaction.mk ("t2") 5 ("Tape") ("2024-01-02T00:00:00.000Z") ("EXPENSE")
    ("1") ("PAID")

/-- An expense with an empty category (folds into `"Other"`). -/
def txEmptyCat : Transaction :=
  Transaction.mk ("t3") 5 ("Tape") ("2024-01-02T00:00:00.000Z") ("EXPENSE")
    ("") ("PAID")

/-- A planned expense for the conversion example. -/
def sampleWish : PlannedExpense :=
  PlannedExpense.mk ("w1") ("Glue") 12 Priority.High

/-- A store state holding one expense and one planned expense. -/
def sampleDB : DBState :=
  DBState.mk [] [txMaterials] [sampleWish]

/-- C3 counterexample: starting from the partial payment 3 (strictly
between 0 and the quota 5) on the active date, two toggles end at 0,
not at 3 — `togglePayment` is not an involution on partial amounts. -/
theorem togglePayment_partial_not_involutive :
    getPaymentOf
        (togglePayment sampleSettings
          (togglePayment sampleSettings [partialStudent] ("s1") ("2024-01-08"))
          ("s1") ("2024-01-08"))
        ("s1") ("2024-01-08")
      ≠ getPaymentOf [partialStudent] ("s1") ("2024-01-08") := by decide

/-- C3 witness: at the binary state `payments = quota = 5` the double
toggle restores the original value. -/
theorem togglePayment_involutive_on_binary_witness :
    getPaymentOf
        (togglePayment sampleSettings
          (togglePayment sampleSettings [paidStudent] ("s1") ("2024-01-08"))
          ("s1") ("2024-01-08"))
        ("s1") ("2024-01-08")
      = getPaymentOf [paidStudent] ("s1") ("2024-01-08") :=
  togglePayment_involutive_on_binary sampleSettings [paidStudent] ("s1")
    ("2024-01-08") paidStudent (by decide) (by decide) (Or.inr (by decide))

/-- C4 witness: on the explicitly deactivated date the quota is 0 and
toggle and bulk-mark leave the roster untouched. -/
theorem inactive_date_noop_witness :
    getQuotaForDate inactiveSettings ("2024-01-08") = 0
    ∧ togglePayment inactiveSettings [paidStudent] ("s1") ("2024-01-08")
        = [paidStudent]
    ∧ markAll inactiveSettings [paidStudent] ("2024-01-08") true = [paidStudent]
    ∧ markAll inactiveSettings [paidStudent] ("2024-01-08") false = [paidStudent] :=
  inactive_date_noop inactiveSettings [paidStudent] ("s1") ("2024-01-08") (by decide)

/-- C6 witness: converting the sample wish adds one transaction of
amount 12 and removes the one planned item. -/
theorem convertWishToExpense_spec_witness :
    (convertWishToExpense sampleDB sampleWish ("id9")
          ("2024-02-01T00:00:00.000Z")).transactions.length
        = sampleDB.transactions.length + 1
    ∧ (convertWishToExpense sampleDB sampleWish ("id9")
          ("2024-02-01T00:00:00.000Z")).plannedExpenses.length + 1
        = sampleDB.plannedExpenses.length
    ∧ ((convertWishToExpense sampleDB sampleWish ("id9")
          ("2024-02-01T00:00:00.000Z")).transactions.getLast?).map
          (fun t => t.amount) = some sampleWish.estimatedCost
    ∧ (addExpense sampleDB ("id9") ("2024-02-01T00:00:00.000Z")
          sampleWish.estimatedCost sampleWish.item ("Materials")).plannedExpenses
        = sampleDB.plannedExpenses :=
  convertWishToExpense_spec sampleDB sampleWish ("id9")
    ("2024-02-01T00:00:00.000Z") (by decide) (by decide)

/-- C7 witness: after mark-all-paid then reset on the active date, both
sample students carry an explicit `0` entry for it. -/
theorem markAll_paid_then_reset_zero_witness :
    (markAll sampleSettings
        (markAll sampleSettings [paidStudent, freshStudent] ("2024-01-08") true)
        ("2024-01-08") false).all
      (fun s => lookup? s.payments ("2024-01-08") == some 0) = true := by
  rw [List.all_eq_true]
  intro s hs
  have h0 := markAll_paid_then_reset_zero sampleSettings [paidStudent, freshStudent]
    ("2024-01-08") (by decide) s hs
  simpa using h0

/-- C9 counterexample: with the category `"Materials"` recorded before the
array-index category `"1"`, the breakdown lists `"1"` first — not the
insertion order of first occurrence claimed for all category strings. -/
theorem pieData_insertion_order_cex :
    pieDataOf [txMaterials, txNumericCat] ≠ [(("Materials"), 20), (("1"), 5)]
    ∧ pieDataOf [txMaterials, txNumericCat] = [(("1"), 5), (("Materials"), 20)] :=
  ⟨by decide, by decide⟩

/-- C9 witness: on the spec's example — 20 in `Materials`, then 5 with an
empty category — the breakdown is `Materials: 20, Other: 5` in that
order, matching the spec-side grouping. -/
theorem pieData_eq_spec_breakdown_witness :
    pieDataOf [txMaterials, txEmptyCat] = specCategoryBreakdown [txMaterials, txEmptyCat]
    ∧ pieDataOf [txMaterials, txEmptyCat] = [(("Materials"), 20), (("Other"), 5)] :=
  ⟨pieData_eq_spec_breakdown [txMaterials, txEmptyCat] (by decide), by decide⟩

end ClassFunds
